import Mathlib

/-!
# Verification of the gaucho_guardian schedule-combination engine

Shallow embedding of the schedule optimizer (`src/schedule_optimizer.py`) and
the conflict/normalization logic it shares with the course service
(`src/course_service.py`).

Embedding conventions:
* Python dict-shaped records become Lean structures; a key read with
  `d.get(k, default)` becomes a field whose absent value is the default
  (`Option` where the Python code distinguishes `None` from a real value).
* Python `float` arithmetic is modelled exactly by `ℚ` (the scoring code only
  adds, subtracts, multiplies by literals, divides and compares, so the
  rational model is the intended real-number semantics of the code).
* Python `int` becomes `ℤ` (`time_to_minutes` can return negative values for
  strings such as "-1:30", and truthiness tests `if not start_time` test
  against 0, not against negativity).
* The process-wide memo caches (`_time_cache` in schedule_optimizer.py and the
  course-data caches in course_service.py) cache a pure function of their key
  and are semantically transparent, so they are not modelled.
* The catalog fetch (`get_all_course_data_by_id`) is upstream I/O; it is
  modelled as a parameter `catalog : String → List RawCourse` giving, for a
  course id, the list of raw catalog records sharing that id, in the order the
  department scan of course_service.py returns them.
-/

/-! ## Clock-time parsing (`schedule_optimizer.time_to_minutes`, also inlined
in `course_service.has_time_conflict`) -/

/-- Python `str.split(sep)` for a one-character separator, on character
lists: `"".split(":") = [""]`, `":".split(":") = ["", ""]`.  (Structural
recursion; the core `String.splitOn` is well-founded and does not reduce in
the kernel.) -/
def splitOnChar (sep : Char) (l : List Char) : List (List Char) :=
  l.foldr (fun c acc =>
    match acc with
    | [] => [[c]]
    | cur :: rest => if c = sep then [] :: cur :: rest else (c :: cur) :: rest) [[]]

/-- Decimal digit-string parsing: `some n` on a nonempty all-digit list. -/
def charsToNat? (l : List Char) : Option ℕ :=
  if l ≠ [] ∧ l.all (fun c => c.isDigit) then
    some (l.foldl (fun n c => n * 10 + (c.toNat - '0'.toNat)) 0)
  else none

/-- Python `int(s)` restricted to an optional leading minus sign followed by
decimal digits.  (CPython's `int` additionally accepts surrounding whitespace,
a `+` sign and digit-group underscores; such strings are treated as malformed
here, which merges them with the malformed case of `time_to_minutes`.) -/
def pyInt? (s : String) : Option ℤ :=
  match s.data with
  | '-' :: rest => (charsToNat? rest).map (fun n => -(n : ℤ))
  | l => (charsToNat? l).map (fun n => (n : ℤ))

/-- Embeds `time_to_minutes(time_str)`: convert an "HH:MM" string to minutes since
midnight; empty or malformed strings yield 0.  Mirrors
schedule_optimizer.py lines 14-30 (the `_time_cache` memo is transparent). -/
def time_to_minutes (time_str : String) : ℤ :=
  if time_str = "" then 0
  else
    match splitOnChar ':' time_str.data with
    | [h, m] =>
      match pyInt? ⟨h⟩, pyInt? ⟨m⟩ with
      | some a, some b => a * 60 + b
      | _, _ => 0
    | _ => 0

/-! ## Normalized time slots and pairwise conflict
(`course_service.has_time_conflict`, `check_times_conflict`) -/

/-- A normalized time entry as produced by `get_course_info`'s
`format_time_info`: the dict `{"days": .., "startTime": .., "endTime": ..,
"location": ..}`. -/
structure NormSlot where
  days : String
  startTime : String
  endTime : String
  location : String
deriving DecidableEq, Repr, Inhabited

/-- The character list of `days` with every space removed
(Python `days.replace(" ", "")`). -/
def daysChars (s : String) : List Char := s.data.filter (fun c => c ≠ ' ')

/-- Embeds `has_time_conflict(time1, time2)` from course_service.py lines 651-680:
two normalized slots conflict iff their (space-stripped) day sets intersect,
all four parsed minute values are nonzero (Python `all([...])` truthiness),
and the open time ranges overlap with strict inequalities. -/
def has_time_conflict (time1 time2 : NormSlot) : Bool :=
  let days1 := daysChars time1.days
  let days2 := daysChars time2.days
  if days1.any (fun c => days2.contains c) then
    let start1 := time_to_minutes time1.startTime
    let end1 := time_to_minutes time1.endTime
    let start2 := time_to_minutes time2.startTime
    let end2 := time_to_minutes time2.endTime
    if start1 = 0 ∨ end1 = 0 ∨ start2 = 0 ∨ end2 = 0 then false
    else decide (start1 < end2 ∧ end1 > start2)
  else false

/-- Embeds `check_times_conflict(times_list, selected_times)` from course_service.py
lines 683-689: some slot of the first list conflicts with some slot of the
second. -/
def check_times_conflict (times_list selected_times : List NormSlot) : Bool :=
  times_list.any (fun t => selected_times.any (fun s => has_time_conflict t s))

/-! ## Fast day-grouped conflict check
(`schedule_optimizer.check_schedule_conflicts_fast`, lines 53-95) -/

/-- Insert `x` after every element `y` with `le y x` (stable insertion). -/
def pyInsert (le : α → α → Bool) (x : α) : List α → List α
  | [] => [x]
  | y :: ys => if le y x then y :: pyInsert le x ys else x :: y :: ys

/-- Stable insertion sort.  Python's `list.sort` is a stable sort, and every
stable sort by the same key produces the same list, so this models
`list.sort(key=...)` exactly.  (Structural recursion; the core
`List.mergeSort` is well-founded and does not reduce in the kernel.) -/
def pySort (le : α → α → Bool) (l : List α) : List α :=
  l.foldl (fun acc x => pyInsert le x acc) []

/-- The five weekday letters recognized by the optimizer. -/
def dayLetters : List Char := ['M', 'T', 'W', 'R', 'F']

/-- The interval list accumulated for weekday `d` by the grouping loop of
`check_schedule_conflicts_fast`: each slot whose parsed start and end are both
nonzero contributes one `(start, end)` entry per occurrence of `d` among its
space-stripped day characters (a repeated day letter appends twice, exactly as
the Python `for day in days` loop does).  Only queried at `d ∈ dayLetters`. -/
def dayGroup (schedule_times : List NormSlot) (d : Char) : List (ℤ × ℤ) :=
  schedule_times.flatMap (fun t =>
    let start_time := time_to_minutes t.startTime
    let end_time := time_to_minutes t.endTime
    if start_time = 0 ∨ end_time = 0 then []
    else ((daysChars t.days).filter (fun c => c = d)).map (fun _ => (start_time, end_time)))

/-- The adjacent-pair overlap scan of `check_schedule_conflicts_fast`
(lines 89-93): on a start-sorted interval list, report a conflict iff some
adjacent pair satisfies `i.start < next.end ∧ i.end > next.start`. -/
def hasAdjacentOverlap : List (ℤ × ℤ) → Bool
  | a :: b :: rest =>
      (decide (a.1 < b.2) && decide (a.2 > b.1)) || hasAdjacentOverlap (b :: rest)
  | _ => false

/-- Embeds `check_schedule_conflicts_fast(schedule_times)` from schedule_optimizer.py
lines 53-95: fewer than two slots never conflict; otherwise group intervals by
weekday letter, sort each day's intervals by start time (Python's stable
`list.sort(key=...)`, modelled by `pySort`) and scan adjacent pairs.
Python iterates only the days actually present in `day_groups`; iterating all
five letters is equivalent because an absent day has an empty interval list,
on which the scan is `false`. -/
def check_schedule_conflicts_fast (schedule_times : List NormSlot) : Bool :=
  if schedule_times.length < 2 then false
  else
    dayLetters.any (fun d =>
      hasAdjacentOverlap (pySort (fun a b => decide (a.1 ≤ b.1))
        (dayGroup schedule_times d)))

/-- The naive all-pairs conflict check the specification's §4.3 describes:
some pair of slots at distinct positions of the list conflicts under the §4.1
pairwise predicate (`has_time_conflict`).  Written from the spec's words, for
comparison with `check_schedule_conflicts_fast`. -/
def pairwise_conflict_naive : List NormSlot → Bool
  | [] => false
  | t :: rest => rest.any (fun u => has_time_conflict t u) || pairwise_conflict_naive rest

/-! ## Normalized course data (the output shape of
`course_service.get_course_info`) -/

/-- A normalized section entry (the `section_info` dicts built in
`get_course_info`).  `sectionLabel` models the Python key `"section"` (a Lean
keyword).  Regular per-lecture entries carry no `"isStandalone"` key, which
downstream code reads as `False`; the flat standalone entries carry `True`. -/
structure SectionEntry where
  enrollCode : Option String
  sectionLabel : Option String
  instructor : String
  times : List NormSlot
  enrolled : ℤ
  maxEnroll : ℤ
  lectureEnrollCode : Option String
  isStandalone : Bool
deriving DecidableEq, Repr, Inhabited

/-- A normalized lecture entry (the `lecture_entry` dicts of
`get_course_info`), carrying the secondary sections structurally grouped with
this lecture. -/
structure LectureEntry where
  enrollCode : Option String
  sectionLabel : Option String
  instructor : String
  times : List NormSlot
  enrolled : ℤ
  maxEnroll : ℤ
  sections : List SectionEntry
  isStandalone : Bool
  typeInstruction : String
deriving DecidableEq, Repr, Inhabited

/-- The dict returned by `get_course_info` (course_service.py lines 553-562). -/
structure CourseInfo where
  courseId : String
  title : String
  subjectArea : String
  units : Option ℚ
  description : String
  generalEducation : List String
  lectureSections : List LectureEntry
  sections : List SectionEntry
deriving DecidableEq, Repr, Inhabited

/-! ## Raw catalog records (the UCSB API shape consumed by
`get_course_info`) -/

/-- A raw `timeLocations` entry.  `days` folds Python `None` to `""` (the code
reads it as `time_loc.get("days") or ""`); `room` likewise folds absent/falsy
to `""`. -/
structure RawTimeLoc where
  days : String
  beginTime : String
  endTime : String
  building : String
  room : String
deriving DecidableEq, Repr, Inhabited

/-- A raw `classSections` entry.  `instructors` keeps only the instructor
names (the code reads `instructors[0]["instructor"]`); `enrollCode` and
`sectionLabel` (Python key `"section"`) distinguish an absent key (`none`)
from a present string. -/
structure RawSection where
  enrollCode : Option String
  sectionLabel : Option String
  typeInstruction : String
  instructors : List String
  enrolledTotal : ℤ
  maxEnroll : ℤ
  timeLocations : List RawTimeLoc
deriving DecidableEq, Repr, Inhabited

/-- One raw catalog record (one enroll-code file). `generalEducation` keeps
the geCode strings; the record is passed through `get_course_info` untouched. -/
structure RawCourse where
  courseId : String
  title : String
  subjectArea : String
  unitsFixed : Option ℚ
  unitsVariableHigh : Option ℚ
  description : String
  generalEducation : List String
  classSections : List RawSection
deriving DecidableEq, Repr, Inhabited

/-- The catalog collaborator: for a course id, the raw records sharing that
id, in the order `get_all_course_data_by_id` returns them (upstream I/O,
modelled as a parameter). -/
def Catalog := String → List RawCourse

/-- Python `str.strip()`: drop leading and trailing whitespace.  (Structural;
the core `String.trim` is iterator-based and does not reduce in the kernel.) -/
def pyStrip (s : String) : String :=
  ⟨((s.data.dropWhile Char.isWhitespace).reverse.dropWhile Char.isWhitespace).reverse⟩

/-- Embeds `format_time_info(section)` (nested in `get_course_info`, course_service.py
lines 429-449): keep only the time locations with nonempty stripped days,
begin time and end time.  Python strips `days` only when truthy; stripping
`""` is also `""`, so the strip is applied unconditionally. -/
def format_time_info (sec : RawSection) : List NormSlot :=
  sec.timeLocations.filterMap (fun tl =>
    let days := pyStrip tl.days
    let location :=
      if tl.building ≠ "" ∧ tl.room ≠ "" then tl.building ++ " " ++ tl.room
      else tl.building
    if days ≠ "" ∧ tl.beginTime ≠ "" ∧ tl.endTime ≠ "" then
      some { days := days, startTime := tl.beginTime, endTime := tl.endTime,
             location := location }
    else none)

/-- Embeds `sec.get("instructors", [{}])[0].get("instructor", "") if
sec.get("instructors") else ""`. -/
def firstInstructor : List String → String
  | [] => ""
  | i :: _ => i

/-- One entry of the insertion-ordered `lectures_with_sections` dict of
`get_course_info`: the dict key (`key`), the lecture (or standalone section)
raw record, its associated raw secondary sections, and the `isStandalone`
flag. -/
structure GroupEntry where
  key : Option String
  lecture : RawSection
  sections : List RawSection
  isStandalone : Bool
deriving DecidableEq, Repr, Inhabited

/-- The first loop of `get_course_info` (lines 366-392): for each raw record,
the first section tagged `"LEC"` becomes the record's lecture and every other
section of the same record its secondary sections; records repeating an
already-seen lecture enroll code are skipped (dict dedup). -/
def lecGroups (records : List RawCourse) : List GroupEntry :=
  records.foldl (fun acc cd =>
    match cd.classSections.find? (fun s => s.typeInstruction = "LEC") with
    | none => acc
    | some lecSec =>
      if acc.any (fun g => g.key = lecSec.enrollCode) then acc
      else acc ++ [{ key := lecSec.enrollCode, lecture := lecSec,
                     sections := cd.classSections.filter (fun s => ¬ s.typeInstruction = "LEC"),
                     isStandalone := false }]) []

/-- All non-lecture sections across the records (lines 396-402). -/
def standaloneSections (records : List RawCourse) : List RawSection :=
  records.flatMap (fun cd => cd.classSections.filter (fun s => ¬ s.typeInstruction = "LEC"))

/-- Lines 406-415: when no lecture was found, each non-lecture section with a
truthy enroll code becomes its own standalone "lecture" group (dedup by
code). -/
def standaloneGroups (secs : List RawSection) : List GroupEntry :=
  secs.foldl (fun acc sec =>
    let code := sec.enrollCode.getD ""
    if code ≠ "" ∧ ¬ acc.any (fun g => g.key = some code) then
      acc ++ [{ key := some code, lecture := sec, sections := [], isStandalone := true }]
    else acc) []

/-- The grouping phase of `get_course_info` with both fallbacks
(lines 362-426): lecture groups; else standalone groups; else, for a single
record with a single section, that section as a standalone lecture. -/
def courseGroups (records : List RawCourse) : List GroupEntry :=
  let groups := lecGroups records
  let standalone := standaloneSections records
  let groups := if groups = [] ∧ standalone ≠ [] then standaloneGroups standalone else groups
  if groups = [] ∧ records.length = 1 then
    match records with
    | [cd] =>
      match cd.classSections with
      | [s] => [{ key := some (s.enrollCode.getD ""), lecture := s, sections := [],
                  isStandalone := true }]
      | _ => []
    | _ => []
  else groups

/-- Embeds `verify_section_belongs_to_lecture` (lines 455-489): rejects a section
that is itself a lecture or has a falsy enroll code; the structural grouping
is otherwise trusted. -/
def verify_section_belongs_to_lecture (sec : RawSection) : Bool :=
  if sec.typeInstruction = "LEC" then false
  else if sec.enrollCode.getD "" = "" then false
  else true

/-- The normalized secondary sections of one group (lines 500-520): skip
sections failing verification (never for standalone groups, whose section
list is empty anyway), format the times, and KEEP ONLY sections whose
formatted time list is nonempty (`if sec_times:` on line 509). -/
def mkSectionInfos (g : GroupEntry) : List SectionEntry :=
  g.sections.filterMap (fun sec =>
    if ¬ g.isStandalone ∧ verify_section_belongs_to_lecture sec = false then none
    else
      let sec_times := format_time_info sec
      if sec_times ≠ [] then
        some { enrollCode := sec.enrollCode, sectionLabel := sec.sectionLabel,
               instructor := firstInstructor sec.instructors, times := sec_times,
               enrolled := sec.enrolledTotal, maxEnroll := sec.maxEnroll,
               lectureEnrollCode := g.key, isStandalone := false }
      else none)

/-- The `lecture_entry` dict of one group (lines 522-534); the lecture is
always kept, even with no times. -/
def mkLectureEntry (g : GroupEntry) : LectureEntry :=
  { enrollCode := g.key, sectionLabel := g.lecture.sectionLabel,
    instructor := firstInstructor g.lecture.instructors,
    times := format_time_info g.lecture,
    enrolled := g.lecture.enrolledTotal, maxEnroll := g.lecture.maxEnroll,
    sections := mkSectionInfos g, isStandalone := g.isStandalone,
    typeInstruction := g.lecture.typeInstruction }

/-- The flat `all_sections_flat` contribution of one group (lines 520, 536-548):
its section infos, plus — for a standalone group with times — the standalone
entry itself. -/
def mkFlatSections (g : GroupEntry) : List SectionEntry :=
  mkSectionInfos g ++
    (if g.isStandalone ∧ format_time_info g.lecture ≠ [] then
       [{ enrollCode := g.key, sectionLabel := g.lecture.sectionLabel,
          instructor := firstInstructor g.lecture.instructors,
          times := format_time_info g.lecture,
          enrolled := g.lecture.enrolledTotal, maxEnroll := g.lecture.maxEnroll,
          lectureEnrollCode := none, isStandalone := true }]
     else [])

/-- Embeds `get_course_info(course_id)` (course_service.py lines 350-562), as a
function of the raw records returned for the course id by the catalog
collaborator (`get_all_course_data_by_id`); `None` exactly when there are no
records. -/
def get_course_info (records : List RawCourse) : Option CourseInfo :=
  match records with
  | [] => none
  | first :: _ =>
    let groups := courseGroups records
    some { courseId := first.courseId, title := first.title,
           subjectArea := first.subjectArea,
           units := first.unitsFixed.or first.unitsVariableHigh,
           description := first.description,
           generalEducation := first.generalEducation,
           lectureSections := groups.map mkLectureEntry,
           sections := groups.flatMap mkFlatSections }

/-! ## Combinations (`schedule_optimizer.find_valid_combinations`,
lines 186-250) -/

/-- A lecture/section combination dict.  `sectionOpt` models the Python key
`"section"` (a Lean keyword). -/
structure Combo where
  lectureIndex : ℕ
  lecture : LectureEntry
  sectionIndex : Option ℕ
  sectionOpt : Option SectionEntry
deriving DecidableEq, Repr, Inhabited

/-- Embeds `get_all_times_from_combination(combo)` (schedule_optimizer.py
lines 43-50): lecture times followed by section times when a section is
present. -/
def get_all_times_from_combination (combo : Combo) : List NormSlot :=
  combo.lecture.times ++
    (match combo.sectionOpt with
     | some s => s.times
     | none => [])

/-- The body of `find_valid_combinations` on a normalized course: for each
lecture (with its index), emit the lecture alone when it has no sections,
else each of its own sections that does not conflict with the lecture's own
times; `sectionIndex` is the first index of the section's enroll code in the
flat `sections` list. -/
def findValidCombinationsInfo (course_info : CourseInfo) : List Combo :=
  let all_sections := course_info.sections
  (course_info.lectureSections.enum).flatMap (fun p =>
    let lecture_idx := p.1
    let lecture := p.2
    let lecture_times := lecture.times
    let lecture_sections := lecture.sections
    if lecture_sections = [] then
      [{ lectureIndex := lecture_idx, lecture := lecture,
         sectionIndex := none, sectionOpt := none }]
    else
      lecture_sections.filterMap (fun s =>
        let section_idx :=
          ((all_sections.enum).find? (fun q => q.2.enrollCode = s.enrollCode)).map (fun q => q.1)
        let conflicts :=
          lecture_times ≠ [] ∧ s.times ≠ [] ∧
            check_times_conflict lecture_times s.times = true
        if conflicts then none
        else some { lectureIndex := lecture_idx, lecture := lecture,
                    sectionIndex := section_idx, sectionOpt := some s }))

/-- Embeds `find_valid_combinations(course_id)` (schedule_optimizer.py
lines 186-250): empty when the course id resolves to no course. -/
def find_valid_combinations (catalog : Catalog) (course_id : String) : List Combo :=
  match get_course_info (catalog course_id) with
  | none => []
  | some info => findValidCombinationsInfo info

/-! ## Preference profile (the `preferences` dict read by `score_schedule`) -/

/-- The recognized preference options.  `Option` fields model absent dict
keys (each read with `.get(...)`); the booleans are read with
`.get(key, False)`. -/
structure Preferences where
  spreadPreference : Option String
  preferredStartTime : Option String
  preferredEndTime : Option String
  avoidEarlyMorning : Bool
  avoidLateEvening : Bool
  prioritizeFreeDays : Bool
  minimizeGaps : Bool
  maxClassesPerDay : Option ℤ
  preferredTimeOfDay : Option String
deriving DecidableEq, Repr, Inhabited

/-- The empty preference dict `{}`. -/
def emptyPrefs : Preferences :=
  { spreadPreference := none, preferredStartTime := none, preferredEndTime := none,
    avoidEarlyMorning := false, avoidLateEvening := false,
    prioritizeFreeDays := false, minimizeGaps := false,
    maxClassesPerDay := none, preferredTimeOfDay := none }

/-! ## Scoring (`schedule_optimizer.score_schedule` and its helpers,
lines 98-183 and 301-442) -/

/-- Python `max` on a nonempty int list (all uses are guarded by a
nonemptiness test; the `[]` case is an arbitrary default). -/
def intListMax : List ℤ → ℤ
  | [] => 0
  | x :: xs => xs.foldl (fun m y => if m < y then y else m) x

/-- Python `min` on a nonempty int list (all uses are guarded). -/
def intListMin : List ℤ → ℤ
  | [] => 0
  | x :: xs => xs.foldl (fun m y => if y < m then y else m) x

/-- Embeds `calculate_schedule_spread(combinations)` (lines 98-131): over all slots
with nonzero parsed start and end, `(latest end − earliest start)`, plus
`0.1 × variance of the start times` when there are at least two of them. -/
def calculate_schedule_spread (combinations : List Combo) : ℚ :=
  if combinations = [] then 0
  else
    let all_pairs := combinations.flatMap (fun combo =>
      (get_all_times_from_combination combo).filterMap (fun t =>
        let start := time_to_minutes t.startTime
        let stop := time_to_minutes t.endTime
        if start ≠ 0 ∧ stop ≠ 0 then some (start, stop) else none))
    let all_start_times := all_pairs.map (fun p => p.1)
    let all_end_times := all_pairs.map (fun p => p.2)
    if all_start_times = [] then 0
    else
      let spread : ℚ := ((intListMax all_end_times - intListMin all_start_times : ℤ) : ℚ)
      if 1 < all_start_times.length then
        let mean_start : ℚ :=
          (all_start_times.map (fun s => (s : ℚ))).sum / (all_start_times.length : ℚ)
        let variance : ℚ :=
          (all_start_times.map (fun s => ((s : ℚ) - mean_start) ^ 2)).sum
            / (all_start_times.length : ℚ)
        spread + variance * (1/10)
      else spread

/-- Embeds `calculate_schedule_center_score(combinations, preferred_start,
preferred_end)` (lines 134-183).  Note the filters here test STRING truthiness
of `startTime`/`endTime` (an unparsable nonempty string passes and contributes
minute value 0), unlike `calculate_schedule_spread` which tests the parsed
integers. -/
def calculate_schedule_center_score (combinations : List Combo)
    (preferred_start preferred_end : Option String) : ℚ :=
  if combinations = [] then 0
  else
    let all_times := combinations.flatMap get_all_times_from_combination
    if all_times = [] then 0
    else
      let start_times :=
        (all_times.filter (fun t => t.startTime ≠ "")).map (fun t => time_to_minutes t.startTime)
      let end_times :=
        (all_times.filter (fun t => t.endTime ≠ "")).map (fun t => time_to_minutes t.endTime)
      if start_times = [] then 0
      else
        if preferred_start.getD "" ≠ "" ∧ preferred_end.getD "" ≠ "" then
          let pref_start_min := time_to_minutes (preferred_start.getD "")
          let pref_end_min := time_to_minutes (preferred_end.getD "")
          let pref_center : ℚ := ((pref_start_min : ℚ) + (pref_end_min : ℚ)) / 2
          let max_distance : ℚ := ((pref_end_min : ℚ) - (pref_start_min : ℚ)) / 2
          let score := (start_times.map (fun s =>
            if 0 < max_distance then max 0 (1 - |(s : ℚ) - pref_center| / max_distance)
            else 0)).sum
          score / (start_times.length : ℚ)
        else
          let mean_start : ℚ :=
            (start_times.map (fun s => (s : ℚ))).sum / (start_times.length : ℚ)
          let mean_end : ℚ :=
            if end_times ≠ [] then
              (end_times.map (fun s => (s : ℚ))).sum / (end_times.length : ℚ)
            else mean_start
          let center := (mean_start + mean_end) / 2
          let total_spread : ℚ :=
            if end_times ≠ [] then
              ((intListMax end_times - intListMin start_times : ℤ) : ℚ)
            else 1
          let score := (start_times.map (fun s =>
            if 0 < total_spread then max 0 (1 - |(s : ℚ) - center| / total_spread)
            else 0)).sum
          score / (start_times.length : ℚ)

/-- The centered/spread block of `score_schedule` (lines 321-331); the option
defaults to `"centered"` when absent (`preferences.get("spreadPreference",
"centered")`). -/
def score_spread_term (combinations : List Combo) (preferences : Preferences) : ℚ :=
  if preferences.spreadPreference.getD "centered" = "centered" then
    calculate_schedule_center_score combinations none none * 30
      - calculate_schedule_spread combinations * (1/100)
  else
    min (calculate_schedule_spread combinations * (5/100)) 30

/-- The preferred-window block (lines 333-339); active only when both bounds
are truthy strings. -/
def score_window_term (combinations : List Combo) (preferences : Preferences) : ℚ :=
  if preferences.preferredStartTime.getD "" ≠ "" ∧ preferences.preferredEndTime.getD "" ≠ "" then
    calculate_schedule_center_score combinations
      preferences.preferredStartTime preferences.preferredEndTime * 20
  else 0

/-- The avoid-early-morning block (lines 341-346): −10 per slot whose parsed
start is < 540 (9 AM); an unparsable start parses to 0 < 540 and is counted. -/
def score_early_term (all_times : List NormSlot) (preferences : Preferences) : ℚ :=
  if preferences.avoidEarlyMorning then
    -(((all_times.filter (fun t => time_to_minutes t.startTime < 540)).length : ℚ) * 10)
  else 0

/-- The avoid-late-evening block (lines 348-353): −10 per slot whose parsed
start is > 1020 (5 PM). -/
def score_late_term (all_times : List NormSlot) (preferences : Preferences) : ℚ :=
  if preferences.avoidLateEvening then
    -(((all_times.filter (fun t => 1020 < time_to_minutes t.startTime)).length : ℚ) * 10)
  else 0

/-- The distinct weekday letters appearing in some slot's (unstripped) day
string — the `days_with_classes` set of lines 356-366. -/
def days_with_classes (all_times : List NormSlot) : List Char :=
  dayLetters.filter (fun d => all_times.any (fun t => t.days.data.contains d))

/-- The free-day block (lines 355-368): +15 per class-free weekday. -/
def score_free_days_term (all_times : List NormSlot) (preferences : Preferences) : ℚ :=
  if preferences.prioritizeFreeDays then
    ((5 : ℚ) - ((days_with_classes all_times).length : ℚ)) * 15
  else 0

/-- The per-day `(start, end)` lists built by the gap block (lines 373-382):
slots with nonzero parsed start and end, one entry per occurrence of `d`
among the slot's (unstripped) day characters. -/
def gapDayTimes (all_times : List NormSlot) (d : Char) : List (ℤ × ℤ) :=
  all_times.flatMap (fun t =>
    let start_time := time_to_minutes t.startTime
    let end_time := time_to_minutes t.endTime
    if start_time ≠ 0 ∧ end_time ≠ 0 then
      (t.days.data.filter (fun c => c = d)).map (fun _ => (start_time, end_time))
    else [])

/-- Sum of the positive gaps between consecutive intervals (lines 390-393). -/
def sumAdjGaps : List (ℤ × ℤ) → ℤ
  | a :: b :: rest => (if 0 < b.1 - a.2 then b.1 - a.2 else 0) + sumAdjGaps (b :: rest)
  | _ => 0

/-- Embeds `total_gap_minutes` of lines 384-393: per weekday, sort that day's
intervals by start time and sum the positive gaps between consecutive ones. -/
def total_gap_minutes (all_times : List NormSlot) : ℤ :=
  (dayLetters.map (fun d =>
    sumAdjGaps (pySort (fun a b => decide (a.1 ≤ b.1)) (gapDayTimes all_times d)))).sum

/-- The gap block (lines 370-402): penalty min(total/10, 50) when there are
gaps, flat +20 bonus otherwise. -/
def score_gaps_term (all_times : List NormSlot) (preferences : Preferences) : ℚ :=
  if preferences.minimizeGaps then
    if 0 < total_gap_minutes all_times then
      -(min ((total_gap_minutes all_times : ℚ) / 10) 50)
    else 20
  else 0

/-- Number of occurrences of weekday letter `d` across all slots' (unstripped)
day strings — the `day_class_counts` of lines 407-412. -/
def day_class_count (all_times : List NormSlot) (d : Char) : ℕ :=
  (all_times.map (fun t => (t.days.data.filter (fun c => c = d)).length)).sum

/-- The max-classes-per-day block (lines 404-418): −25 per class above the cap
on each weekday; a cap of 0 is falsy (`if max_classes_per_day:`), so the whole
block is skipped, exactly like an absent cap. -/
def score_cap_term (all_times : List NormSlot) (preferences : Preferences) : ℚ :=
  let cap := preferences.maxClassesPerDay.getD 0
  if cap ≠ 0 then
    -((((dayLetters.map (fun d =>
        let count : ℤ := (day_class_count all_times d : ℤ)
        if cap < count then (count - cap) * 25 else 0)).sum : ℤ) : ℚ))
  else 0

/-- The time-of-day block (lines 420-440): +8 per slot starting in the
preferred band; an unparsable start parses to 0 < 720 and counts as
"morning". -/
def score_tod_term (all_times : List NormSlot) (preferences : Preferences) : ℚ :=
  let tod := preferences.preferredTimeOfDay.getD ""
  if tod ≠ "" then
    if tod = "morning" then
      ((all_times.filter (fun t => time_to_minutes t.startTime < 720)).length : ℚ) * 8
    else if tod = "afternoon" then
      ((all_times.filter (fun t =>
        720 ≤ time_to_minutes t.startTime ∧ time_to_minutes t.startTime ≤ 1020)).length : ℚ) * 8
    else if tod = "evening" then
      ((all_times.filter (fun t => 1020 < time_to_minutes t.startTime)).length : ℚ) * 8
    else 0
  else 0

/-- Embeds `score_schedule(combinations, preferences, pre_extracted_times)`
(lines 301-442).  The Python body initializes `score = 100.0` and then runs
the eight preference blocks sequentially with `+=`/`-=`; that sequence equals
this sum, with each block's sign folded into its helper term.  An empty
combination list short-circuits to 0.0 before the base value is applied. -/
def score_schedule (combinations : List Combo) (preferences : Preferences)
    (pre_extracted_times : Option (List NormSlot)) : ℚ :=
  if combinations = [] then 0
  else
    let all_times :=
      match pre_extracted_times with
      | none => combinations.flatMap get_all_times_from_combination
      | some ts => ts
    100 + score_spread_term combinations preferences
        + score_window_term combinations preferences
        + score_early_term all_times preferences
        + score_late_term all_times preferences
        + score_free_days_term all_times preferences
        + score_gaps_term all_times preferences
        + score_cap_term all_times preferences
        + score_tod_term all_times preferences

/-! ## Cross-course generation and top-K selection
(`generate_all_schedule_combinations`, `optimize_schedules`,
schedule_optimizer.py lines 253-298 and 445-539) -/

/-- Embeds `itertools.product(*lists)` in generation order (first list varies
slowest). -/
def pyProduct : List (List α) → List (List α)
  | [] => [[]]
  | l :: ls => l.flatMap (fun x => (pyProduct ls).map (fun xs => x :: xs))

/-- The per-course combination gathering loop shared (verbatim) by
`generate_all_schedule_combinations` (lines 263-275) and `optimize_schedules`
(lines 460-471): the list of per-course combination lists, or `none` as soon
as some course yields no combinations (the Python early `return []`). -/
def gather_combinations (catalog : Catalog) : List String → Option (List (List Combo))
  | [] => some []
  | cid :: rest =>
    let combinations := find_valid_combinations catalog cid
    if combinations = [] then none
    else
      match gather_combinations catalog rest with
      | none => none
      | some ls => some (combinations :: ls)

/-- The flattened time slots of a candidate schedule.
`generate_all_schedule_combinations` recovers each combo's pre-extracted
times through `all_combinations_per_course[i].index(combo)`, which returns an
element structurally equal to `combo`; its pre-extracted times are therefore
`get_all_times_from_combination combo` itself. -/
def schedule_all_times (schedule : List Combo) : List NormSlot :=
  schedule.flatMap get_all_times_from_combination

/-- Embeds `generate_all_schedule_combinations(course_ids, max_results)`
(lines 253-298): every conflict-free element of the cross product, truncated
to `max_results` when that bound is a truthy int (`if max_results and count >=
max_results: break` — `None` and `0` both mean unbounded). -/
def generate_all_schedule_combinations (catalog : Catalog) (course_ids : List String)
    (max_results : Option ℕ) : List (List Combo) :=
  match gather_combinations catalog course_ids with
  | none => []
  | some per_course =>
    let valids := (pyProduct per_course).filter
      (fun s => ¬ check_schedule_conflicts_fast (schedule_all_times s) = true)
    match max_results with
    | none => valids
    | some m => if m = 0 then valids else valids.take m

/-- The `(lecture enrollCode, section enrollCode)` key used by
`optimize_schedules` to look combos up (lines 483-487 and 495-498); the
second component is `None` when the combo has no section. -/
def comboKey (combo : Combo) : Option String × Option String :=
  (combo.lecture.enrollCode, combo.sectionOpt.bind (fun s => s.enrollCode))

/-- The `combo_to_idx` dict lookup: the dict is filled left to right with
overwrite, so a key maps to the LAST index bearing it. -/
def comboIndexLookup (combos : List Combo) (key : Option String × Option String) :
    Option ℕ :=
  (((combos.enum).filter (fun p => comboKey p.2 = key)).map (fun p => p.1)).getLast?

/-- The `schedule_times` assembled for one candidate in `optimize_schedules`
(lines 493-502): per position, look the combo up by enroll-code key and take
that combo's pre-extracted times; a missing key contributes nothing. -/
def optimize_schedule_times (per_course : List (List Combo))
    (combo_product : List Combo) : List NormSlot :=
  (combo_product.enum).flatMap (fun p =>
    let combos_i := per_course.getD p.1 []
    match comboIndexLookup combos_i (comboKey p.2) with
    | none => []
    | some j => get_all_times_from_combination (combos_i.getD j default))

/-- One entry of the bounded heap of `optimize_schedules`: the Python tuple
`(-score, count_processed, schedule, schedule_times)`. -/
structure HeapEntry where
  negScore : ℚ
  cnt : ℕ
  sched : List Combo
  times : List NormSlot
deriving DecidableEq, Repr, Inhabited

/-- Strict lexicographic order on the first two tuple components.  Python
compares heap tuples lexicographically; the comparison never reaches the
third component because `cnt` values are distinct within one call (that is
the stated purpose of the tiebreaker). -/
def entryKeyLTb (a b : HeapEntry) : Bool :=
  decide (a.negScore < b.negScore) ||
    (decide (a.negScore = b.negScore) && decide (a.cnt < b.cnt))

/-- Reflexive version of the key order, for sorting. -/
def entryKeyLEb (a b : HeapEntry) : Bool :=
  decide (a.negScore < b.negScore) ||
    (decide (a.negScore = b.negScore) && decide (a.cnt ≤ b.cnt))

/-- Embeds `heap[0]`: the minimum entry of the heap under the tuple order (the heap
invariant keeps it at index 0); `none` on an empty heap. -/
def heapMin : List HeapEntry → Option HeapEntry
  | [] => none
  | e :: rest => some (rest.foldl (fun m x => if entryKeyLTb x m then x else m) e)

/-- A returned schedule with its score (`{"schedule": .., "score": ..}`). -/
structure ScoredSchedule where
  schedule : List Combo
  score : ℚ
deriving DecidableEq, Repr, Inhabited

/-- The body of the candidate loop of `optimize_schedules` (lines 491-521) as
a fold step over `(heap contents, count_processed)`.  The heap is modelled by
its multiset of entries (kept in insertion order): `heappush` appends;
`heapreplace` removes the minimum (identified by its unique `cnt`) and
appends.  When the heap is full, the code compares the candidate against
`heap[0]` — which, because scores are NEGATED, is the entry with the HIGHEST
score — and replaces it when the candidate scores even higher.  For
`max_results = 0` Python would raise IndexError on `heap[0]`; that branch is
modelled as a no-op and never exercised here. -/
def optimize_step (preferences : Preferences) (max_results : ℕ)
    (per_course : List (List Combo)) (acc : List HeapEntry × ℕ)
    (combo_product : List Combo) : List HeapEntry × ℕ :=
  let heap := acc.1
  let count_processed := acc.2
  let schedule_times := optimize_schedule_times per_course combo_product
  if check_schedule_conflicts_fast schedule_times then acc
  else
    let score := score_schedule combo_product preferences (some schedule_times)
    let cnt := count_processed + 1
    let e : HeapEntry :=
      { negScore := -score, cnt := cnt, sched := combo_product, times := schedule_times }
    if heap.length < max_results then (heap ++ [e], cnt)
    else
      match heapMin heap with
      | none => (heap, cnt)
      | some m =>
        if -score < m.negScore then
          (heap.eraseP (fun x => decide (x.cnt = m.cnt)) ++ [e], cnt)
        else (heap, cnt)

/-- Embeds `optimize_schedules(course_ids, preferences, max_results)`
(lines 445-539).  The final extraction pops the heap empty — yielding entries
in ascending tuple order, i.e. descending score with ties in ascending
`cnt` — and then stable-sorts by score descending, which leaves that order
unchanged; the result is therefore the heap contents sorted by
`(negScore, cnt)` ascending. -/
def optimize_schedules (catalog : Catalog) (course_ids : List String)
    (preferences : Preferences) (max_results : ℕ) : List ScoredSchedule :=
  if course_ids = [] then []
  else
    match gather_combinations catalog course_ids with
    | none => []
    | some per_course =>
      let result := (pyProduct per_course).foldl
        (optimize_step preferences max_results per_course) ([], 0)
      let heap := result.1
      if heap = [] then []
      else
        (pySort entryKeyLEb heap).map
          (fun e => { schedule := e.sched, score := -e.negScore })

/-! ## Concrete fixtures for witnesses and counterexamples -/

/-- A raw time location with the given days/begin/end and no room info. -/
def rawLoc (d b e : String) : RawTimeLoc :=
  { days := d, beginTime := b, endTime := e, building := "", room := "" }

/-- A raw lecture section with the given enroll code and time locations. -/
def rawLec (code : String) (locs : List RawTimeLoc) : RawSection :=
  { enrollCode := some code, sectionLabel := some "0100", typeInstruction := "LEC",
    instructors := [], enrolledTotal := 0, maxEnroll := 0, timeLocations := locs }

/-- A raw catalog record with the given course id and class sections. -/
def rawCourseOf (cid : String) (secs : List RawSection) : RawCourse :=
  { courseId := cid, title := "T", subjectArea := "CS", unitsFixed := some 4,
    unitsVariableHigh := none, description := "", generalEducation := [],
    classSections := secs }

/-- Three records of one course, each contributing one lecture:
A meets Mon and Wed 8:00-8:50 (two early slots), B meets Mon 8:00-8:50
(one early slot), C meets Mon 10:00-10:50 (no early slot). -/
def recA : RawCourse :=
  rawCourseOf "CS 1" [rawLec "A" [rawLoc "M" "08:00" "08:50", rawLoc "W" "08:00" "08:50"]]

def recB : RawCourse := rawCourseOf "CS 1" [rawLec "B" [rawLoc "M" "08:00" "08:50"]]

def recC : RawCourse := rawCourseOf "CS 1" [rawLec "C" [rawLoc "M" "10:00" "10:50"]]

/-- Catalog with the single course "CS 1" offered as lectures A, B, C. -/
def catC1 : Catalog := fun cid => if cid = "CS 1" then [recA, recB, recC] else []

/-- The preference profile `{"avoidEarlyMorning": True}`. -/
def prefsAvoidEarly : Preferences := { emptyPrefs with avoidEarlyMorning := true }

/-- A raw secondary (discussion) section whose only time location has no
days and no begin/end time. -/
def rawSecNoTimes : RawSection :=
  { enrollCode := some "S1", sectionLabel := some "0101", typeInstruction := "DIS",
    instructors := [], enrolledTotal := 0, maxEnroll := 0,
    timeLocations := [rawLoc "" "" ""] }

/-- One record of course "X 1": a timed lecture L1 plus the absent-time
secondary section S1. -/
def recX : RawCourse :=
  rawCourseOf "X 1" [rawLec "L1" [rawLoc "M" "10:00" "10:50"], rawSecNoTimes]

/-- Catalog offering only course "X 1". -/
def catC2 : Catalog := fun cid => if cid = "X 1" then [recX] else []

/-- Normalized slot Monday 10:00-10:50. -/
def slotM10 : NormSlot :=
  { days := "M", startTime := "10:00", endTime := "10:50", location := "" }

/-- A normalized lecture entry meeting Monday 10:00-10:50, with no
secondary sections. -/
def lecCEntry : LectureEntry :=
  { enrollCode := some "C", sectionLabel := some "0100", instructor := "",
    times := [slotM10], enrolled := 0, maxEnroll := 0, sections := [],
    isStandalone := false, typeInstruction := "LEC" }

/-- The lecture-only combination of `lecCEntry`. -/
def comboC : Combo :=
  { lectureIndex := 0, lecture := lecCEntry, sectionIndex := none, sectionOpt := none }

/-- A normalized slot on Monday with missing start and end times. -/
def slotNoTime : NormSlot := { days := "M", startTime := "", endTime := "", location := "" }

/-- A lecture entry whose only slot has no time information. -/
def lecNoTimeEntry : LectureEntry :=
  { lecCEntry with enrollCode := some "N", times := [slotNoTime] }

/-- The lecture-only combination of `lecNoTimeEntry`. -/
def comboNoTime : Combo :=
  { lectureIndex := 0, lecture := lecNoTimeEntry, sectionIndex := none, sectionOpt := none }

/-- Midnight slots: Monday 00:00-01:00 and Monday 00:30-01:30. -/
def slotMidA : NormSlot := { days := "M", startTime := "00:00", endTime := "01:00", location := "" }

/-- See `slotMidA`. -/
def slotMidB : NormSlot := { days := "M", startTime := "00:30", endTime := "01:30", location := "" }

/-- A slot whose day string repeats the letter M. -/
def slotDupDays : NormSlot := { days := "MM", startTime := "01:00", endTime := "02:00", location := "" }

/-- A Tuesday slot that conflicts with nothing else in the fixtures. -/
def slotTue : NormSlot := { days := "T", startTime := "03:20", endTime := "05:00", location := "" }

/-- Four Monday slots, for exercising the max-classes-per-day cap. -/
def slotsM4 : List NormSlot :=
  [{ days := "M", startTime := "08:00", endTime := "08:50", location := "" },
   { days := "M", startTime := "09:00", endTime := "09:50", location := "" },
   { days := "M", startTime := "10:00", endTime := "10:50", location := "" },
   { days := "M", startTime := "11:00", endTime := "11:50", location := "" }]

/-- A lecture entry with the four Monday slots. -/
def lecM4Entry : LectureEntry := { lecCEntry with enrollCode := some "D", times := slotsM4 }

/-- The lecture-only combination of `lecM4Entry`. -/
def comboM4 : Combo :=
  { lectureIndex := 0, lecture := lecM4Entry, sectionIndex := none, sectionOpt := none }

/-! ## Claim C10: empty schedule scores 0.0 -/

/-- C10: `score_schedule` applied to an empty combination list returns exactly
0.0 for every preference profile and every pre-extracted time list,
short-circuiting before the base value 100.0 is ever applied. -/
theorem score_schedule_empty_schedule (preferences : Preferences)
    (pre_extracted_times : Option (List NormSlot)) :
    score_schedule [] preferences pre_extracted_times = 0 := rfl

/-! ## Claim C5: base score and the empty preference profile -/

/-- C5 counterexample: scoring a one-lecture schedule (Monday 10:00-10:50)
with the EMPTY preference profile yields 114.5, not 100.0: the absent
`spreadPreference` option defaults to `"centered"` and contributes
`+30 x centerScore - 0.01 x spread = +15 - 0.5`. -/
theorem empty_prefs_score_not_base :
    score_schedule [comboC] emptyPrefs none = 229/2 ∧ (229/2 : ℚ) ≠ 100 := by
  constructor
  · with_unfolding_all rfl
  · with_unfolding_all decide

/-- C5 (amended): `score_schedule` starts from the base value 100.0 and each
preference option adjusts it additively; every option other than
`spreadPreference` has no effect when absent, but `spreadPreference` defaults
to `"centered"`, so scoring a non-empty schedule with the empty profile
returns `100 + 30 x centerScore - 0.01 x spread` (which is exactly 100.0 only
when both those quantities vanish, e.g. with no parsable times). -/
theorem score_schedule_empty_prefs_formula (combinations : List Combo)
    (h : combinations ≠ []) :
    score_schedule combinations emptyPrefs none =
      100 + calculate_schedule_center_score combinations none none * 30
          - calculate_schedule_spread combinations * (1/100) := by
  simp only [score_schedule, if_neg h]
  simp only [score_spread_term, score_window_term, score_early_term, score_late_term,
    score_free_days_term, score_gaps_term, score_cap_term, score_tod_term, emptyPrefs,
    Option.getD_none, Option.getD_some]
  norm_num
  ring

/-- Witness for C5 (amended) at the concrete one-lecture schedule. -/
theorem score_schedule_empty_prefs_formula_witness :
    score_schedule [comboC] emptyPrefs none =
      100 + calculate_schedule_center_score [comboC] none none * 30
          - calculate_schedule_spread [comboC] * (1/100) :=
  score_schedule_empty_prefs_formula [comboC] (by decide)

/-! ## Claim C3: the pairwise overlap predicate -/

/-- C3 counterexample: the slots Monday 00:00-01:00 and Monday 00:30-01:30
share a day and satisfy `start(a) < end(b)` and `start(b) < end(a)`, yet
`has_time_conflict` returns `false`: "00:00" parses to 0 minutes, which the
code's truthiness guard treats as a missing time. -/
theorem midnight_slot_no_conflict :
    (∃ c, c ∈ daysChars slotMidA.days ∧ c ∈ daysChars slotMidB.days) ∧
    time_to_minutes slotMidA.startTime < time_to_minutes slotMidB.endTime ∧
    time_to_minutes slotMidB.startTime < time_to_minutes slotMidA.endTime ∧
    has_time_conflict slotMidA slotMidB = false := by
  refine ⟨⟨'M', by decide, by decide⟩, by decide, by decide, by decide⟩

/-- Helper (shared by the C3 and C4 developments): exact characterization of
`has_time_conflict` — true iff the space-stripped day sets intersect, all four
parsed minute values are nonzero, and the strict interval inequalities hold. -/
theorem has_time_conflict_true_iff (a b : NormSlot) :
    has_time_conflict a b = true ↔
      ((∃ c, c ∈ daysChars a.days ∧ c ∈ daysChars b.days) ∧
       time_to_minutes a.startTime ≠ 0 ∧ time_to_minutes a.endTime ≠ 0 ∧
       time_to_minutes b.startTime ≠ 0 ∧ time_to_minutes b.endTime ≠ 0 ∧
       time_to_minutes a.startTime < time_to_minutes b.endTime ∧
       time_to_minutes b.startTime < time_to_minutes a.endTime) := by
  simp only [has_time_conflict]
  split_ifs with hdays hz
  · simp only [false_iff]
    rintro ⟨-, h1, h2, h3, h4, -, -⟩
    tauto
  · rw [decide_eq_true_eq]
    have hd : ∃ c, c ∈ daysChars a.days ∧ c ∈ daysChars b.days := by
      rcases List.any_eq_true.mp hdays with ⟨c, hc, hcb⟩
      exact ⟨c, hc, List.elem_iff.mp hcb⟩
    push_neg at hz
    constructor
    · rintro ⟨h1, h2⟩
      exact ⟨hd, hz.1, hz.2.1, hz.2.2.1, hz.2.2.2, h1, h2⟩
    · rintro ⟨-, -, -, -, -, h1, h2⟩
      exact ⟨h1, h2⟩
  · simp only [false_iff]
    rintro ⟨⟨c, hca, hcb⟩, -⟩
    exact hdays (List.any_eq_true.mpr ⟨c, hca, List.elem_iff.mpr hcb⟩)

/-- Helper: a slot with a zero-parsed start or end time never conflicts in
either argument position. -/
theorem has_time_conflict_zero (a b : NormSlot)
    (hz : time_to_minutes a.startTime = 0 ∨ time_to_minutes a.endTime = 0) :
    has_time_conflict a b = false ∧ has_time_conflict b a = false := by
  constructor
  · simp only [has_time_conflict]
    split_ifs with hdays hz2
    · rfl
    · exact absurd (by tauto) hz2
    · rfl
  · simp only [has_time_conflict]
    split_ifs with hdays hz2
    · rfl
    · exact absurd (by tauto) hz2
    · rfl

/-- Helper: an empty clock string, or one that does not split into exactly
two ":"-separated parts, parses to 0 minutes. -/
theorem time_to_minutes_malformed (s : String)
    (hs : s = "" ∨ (splitOnChar ':' s.data).length ≠ 2) : time_to_minutes s = 0 := by
  rcases hs with rfl | hlen
  · rfl
  · simp only [time_to_minutes]
    split
    · rfl
    · split
      · next heq => exact absurd (by rw [heq]; rfl) hlen
      · rfl

/-- C3 (amended): `has_time_conflict a b` is true iff the space-stripped day
sets intersect AND all four parsed minute values are nonzero AND
`start(a) < end(b)` AND `start(b) < end(a)` — so boundary-touching slots never
conflict; a slot whose start or end parses to 0 (in particular an empty or
malformed "HH:MM" string, but also the well-formed "00:00") never conflicts
with anything; and the empty or wrong-arity strings do parse to 0.  The
embedding is total, so no input raises. -/
theorem has_time_conflict_characterization :
    (∀ a b : NormSlot,
      has_time_conflict a b = true ↔
        ((∃ c, c ∈ daysChars a.days ∧ c ∈ daysChars b.days) ∧
         time_to_minutes a.startTime ≠ 0 ∧ time_to_minutes a.endTime ≠ 0 ∧
         time_to_minutes b.startTime ≠ 0 ∧ time_to_minutes b.endTime ≠ 0 ∧
         time_to_minutes a.startTime < time_to_minutes b.endTime ∧
         time_to_minutes b.startTime < time_to_minutes a.endTime)) ∧
    (∀ a b : NormSlot,
      time_to_minutes a.startTime = 0 ∨ time_to_minutes a.endTime = 0 →
        has_time_conflict a b = false ∧ has_time_conflict b a = false) ∧
    (∀ s : String, s = "" ∨ (splitOnChar ':' s.data).length ≠ 2 →
        time_to_minutes s = 0) :=
  ⟨has_time_conflict_true_iff, has_time_conflict_zero, time_to_minutes_malformed⟩

/-- Witness for C3 (amended): the characterization applied at concrete
slots and strings. -/
theorem has_time_conflict_characterization_witness :
    has_time_conflict slotNoTime slotM10 = false ∧ time_to_minutes "0700" = 0 := by
  constructor
  · exact (has_time_conflict_characterization.2.1 slotNoTime slotM10 (Or.inl (by decide))).1
  · exact has_time_conflict_characterization.2.2 "0700" (Or.inr (by decide))

/-! ## Claim C2: absent-time sections in normalization -/

/-- C2 counterexample: course "X 1" has a lecture plus a secondary section S1
whose only time location carries no days and no begin/end time.  The
normalized output DROPS S1 (`if sec_times:` in `get_course_info` keeps only
sections with at least one complete time slot): the lecture's section list and
the flat section list are both empty, and `find_valid_combinations` emits
only the section-less lecture combination. -/
theorem timeless_section_dropped_concrete :
    (∃ sec ∈ recX.classSections, sec.typeInstruction ≠ "LEC" ∧ format_time_info sec = []) ∧
    (get_course_info (catC2 "X 1")).map (fun i => i.lectureSections.map (fun l => l.sections))
      = some [[]] ∧
    (get_course_info (catC2 "X 1")).map (fun i => i.sections) = some [] ∧
    (find_valid_combinations catC2 "X 1").map (fun c => c.sectionOpt) = [none] := by
  refine ⟨⟨rawSecNoTimes, by decide, by decide, by decide⟩, ?_, ?_, ?_⟩
  · with_unfolding_all rfl
  · with_unfolding_all rfl
  · with_unfolding_all rfl

/-- Helper for C2: every section kept in a normalized group has a nonempty
time list (the `if sec_times:` filter of course_service.py line 509). -/
theorem mem_mkSectionInfos_times_ne_nil {g : GroupEntry} {s : SectionEntry}
    (hs : s ∈ mkSectionInfos g) : s.times ≠ [] := by
  simp only [mkSectionInfos, List.mem_filterMap] at hs
  obtain ⟨sec, hmem, hf⟩ := hs
  by_cases h1 : ¬ g.isStandalone = true ∧ verify_section_belongs_to_lecture sec = false
  · rw [if_pos h1] at hf
    exact absurd hf (by simp)
  · rw [if_neg h1] at hf
    by_cases h2 : format_time_info sec ≠ []
    · rw [if_pos h2] at hf
      rw [Option.some.injEq] at hf
      subst hf
      simpa using h2
    · rw [if_neg h2] at hf
      exact absurd hf (by simp)

/-- C2 (amended): a secondary section none of whose raw time locations has
all of days, begin time and end time is DROPPED by normalization — every
section surviving in a normalized course has a nonempty time list, and
consequently every combination emitted by `find_valid_combinations` whose
section is present carries a section with known times.  (The claim's
"retained and still selectable" behaviour does not hold; only the lecture
itself is kept when timeless.) -/
theorem normalized_sections_have_times (records : List RawCourse) (info : CourseInfo)
    (h : get_course_info records = some info) :
    (∀ lec ∈ info.lectureSections, ∀ s ∈ lec.sections, s.times ≠ []) ∧
    (∀ combo ∈ findValidCombinationsInfo info, ∀ s, combo.sectionOpt = some s → s.times ≠ []) := by
  have hlecs : ∀ lec ∈ info.lectureSections, ∀ s ∈ lec.sections, s.times ≠ [] := by
    cases records with
    | nil => simp [get_course_info] at h
    | cons first rest =>
      simp only [get_course_info, Option.some.injEq] at h
      subst h
      intro lec hlec s hs
      simp only [List.mem_map] at hlec
      obtain ⟨g, hg, rfl⟩ := hlec
      exact mem_mkSectionInfos_times_ne_nil (by simpa [mkLectureEntry] using hs)
  refine ⟨hlecs, ?_⟩
  intro combo hcombo s hsec
  simp only [findValidCombinationsInfo, List.mem_flatMap] at hcombo
  obtain ⟨⟨i, lec⟩, hp, hmem⟩ := hcombo
  have hlecmem : lec ∈ info.lectureSections := by
    obtain ⟨hlt, heq⟩ := List.mem_enum hp
    exact heq ▸ List.getElem_mem hlt
  by_cases hempty : lec.sections = []
  · rw [if_pos hempty] at hmem
    obtain rfl := List.mem_singleton.mp hmem
    simp at hsec
  · rw [if_neg hempty] at hmem
    simp only [List.mem_filterMap] at hmem
    obtain ⟨sec, hsecmem, hf⟩ := hmem
    by_cases hconf : lec.times ≠ [] ∧ sec.times ≠ [] ∧
        check_times_conflict lec.times sec.times = true
    · rw [if_pos hconf] at hf
      exact absurd hf (by simp)
    · rw [if_neg hconf] at hf
      rw [Option.some.injEq] at hf
      cases hf
      dsimp only at hsec
      rw [Option.some.injEq] at hsec
      subst hsec
      exact hlecs lec hlecmem sec hsecmem

/-- Witness for C2 (amended), applied to the concrete one-record course. -/
theorem normalized_sections_have_times_witness :
    (∀ lec ∈ ((get_course_info [recX]).getD default).lectureSections,
        ∀ s ∈ lec.sections, s.times ≠ []) ∧
    (∀ combo ∈ findValidCombinationsInfo ((get_course_info [recX]).getD default),
        ∀ s, combo.sectionOpt = some s → s.times ≠ []) :=
  normalized_sections_have_times [recX] ((get_course_info [recX]).getD default)
    (by with_unfolding_all rfl)

/-! ## Claim C8: empty input and blocked courses -/

/-- Helper for C8: the shared gathering loop returns `none` as soon as some
requested course yields no combinations. -/
theorem gather_combinations_eq_none {catalog : Catalog} {course_ids : List String}
    (h : ∃ cid ∈ course_ids, find_valid_combinations catalog cid = []) :
    gather_combinations catalog course_ids = none := by
  induction course_ids with
  | nil => simp at h
  | cons a rest ih =>
    obtain ⟨cid, hmem, hempty⟩ := h
    rcases List.mem_cons.mp hmem with h1 | h2
    · subst h1
      simp [gather_combinations, hempty]
    · by_cases ha : find_valid_combinations catalog a = []
      · simp [gather_combinations, ha]
      · simp [gather_combinations, ha, ih ⟨cid, h2, hempty⟩]

/-- C8: `optimize_schedules` returns the empty list on an empty course-id
list; it returns the empty list (no partial schedules) whenever any requested
course yields zero valid combinations; and an unknown course id (no catalog
records) yields zero valid combinations.  All three are ordinary returns of
the total embedding — nothing raises. -/
theorem optimize_schedules_empty_cases :
    (∀ (catalog : Catalog) (preferences : Preferences) (max_results : ℕ),
      optimize_schedules catalog [] preferences max_results = []) ∧
    (∀ (catalog : Catalog) (course_ids : List String) (preferences : Preferences)
        (max_results : ℕ),
      (∃ cid ∈ course_ids, find_valid_combinations catalog cid = []) →
      optimize_schedules catalog course_ids preferences max_results = []) ∧
    (∀ (catalog : Catalog) (cid : String), catalog cid = [] →
      find_valid_combinations catalog cid = []) := by
  refine ⟨?_, ?_, ?_⟩
  · intro catalog preferences max_results
    rfl
  · intro catalog course_ids preferences max_results h
    unfold optimize_schedules
    rw [gather_combinations_eq_none h]
    split
    · rfl
    · rfl
  · intro catalog cid h
    unfold find_valid_combinations
    rw [h]
    rfl

/-- Witness for C8 at a concrete catalog: an unknown course id in the request
collapses the whole optimization to the empty result, and the empty request
is an empty result. -/
theorem optimize_schedules_empty_cases_witness :
    optimize_schedules catC2 ["NOPE"] emptyPrefs 5 = [] ∧
    optimize_schedules catC2 [] emptyPrefs 3 = [] := by
  constructor
  · exact optimize_schedules_empty_cases.2.1 catC2 ["NOPE"] emptyPrefs 5
      ⟨"NOPE", List.mem_singleton.mpr rfl,
        optimize_schedules_empty_cases.2.2 catC2 "NOPE" (by decide)⟩
  · exact optimize_schedules_empty_cases.1 catC2 emptyPrefs 3

/-! ## Claim C1: top-K selection -/

/-- C1 (code bug): with three valid schedules scoring 94.5, 104.5 and 114.5
(in generation order) and `max_results = 2`, the optimizer returns scores
[114.5, 94.5] — NOT the two highest [114.5, 104.5].  Because scores are
negated for the min-heap, `heap[0]` is the entry with the HIGHEST score, so
the full-heap branch `if -score < heap[0][0]: heapreplace(...)` evicts the
current BEST entry whenever an even better candidate arrives, contradicting
both the specification and the code's own comment ("only add if this score is
better than the worst"). -/
theorem optimize_schedules_heap_inversion :
    (generate_all_schedule_combinations catC1 ["CS 1"] none).map
        (fun s => score_schedule s prefsAvoidEarly none) = [189/2, 209/2, 229/2] ∧
    (optimize_schedules catC1 ["CS 1"] prefsAvoidEarly 2).map (fun r => r.score)
        = [229/2, 189/2] ∧
    (209/2 : ℚ) ∉ (optimize_schedules catC1 ["CS 1"] prefsAvoidEarly 2).map
        (fun r => r.score) := by
  refine ⟨?_, ?_, ?_⟩
  · with_unfolding_all rfl
  · with_unfolding_all rfl
  · have h : (optimize_schedules catC1 ["CS 1"] prefsAvoidEarly 2).map (fun r => r.score)
        = [229/2, 189/2] := by with_unfolding_all rfl
    rw [h]
    with_unfolding_all decide

/-! ## Claim C6: slots with missing or unparsable start times in scoring -/

/-- C6 counterexample: a slot with an empty start time parses to 0 minutes
and IS counted by the early-morning penalty (0 < 540) and by the morning
time-of-day bonus (0 < 720): with `avoidEarlyMorning` the one-timeless-slot
schedule scores 90, not the 100 the claim's "contributes 0 to every
time-based term" would give. -/
theorem timeless_slot_counted_early :
    time_to_minutes slotNoTime.startTime = 0 ∧
    score_early_term [slotNoTime] prefsAvoidEarly = -10 ∧
    score_tod_term [slotNoTime] { emptyPrefs with preferredTimeOfDay := some "morning" } = 8 ∧
    score_schedule [comboNoTime] prefsAvoidEarly none = 90 := by
  refine ⟨rfl, ?_, ?_, ?_⟩ <;> with_unfolding_all rfl

/-- C6 (amended): appending a slot whose start time is missing or unparsable
(parsed minutes 0) to a schedule's slot list subtracts 10 under
`avoidEarlyMorning` (it counts as an early-morning slot) and adds 8 under the
"morning" time-of-day preference (it counts as a morning slot); it leaves the
late-evening penalty and the afternoon/evening bonuses unchanged; and its day
letters still count toward the weekdays the schedule uses. -/
theorem timeless_slot_term_effects (ts : List NormSlot) (t : NormSlot)
    (p : Preferences) (h : time_to_minutes t.startTime = 0) :
    score_early_term (ts ++ [t]) p
        = score_early_term ts p + (if p.avoidEarlyMorning then (-10 : ℚ) else 0) ∧
    score_late_term (ts ++ [t]) p = score_late_term ts p ∧
    score_tod_term (ts ++ [t]) p
        = score_tod_term ts p
            + (if p.preferredTimeOfDay.getD "" = "morning" then (8 : ℚ) else 0) ∧
    (∀ d, d ∈ days_with_classes (ts ++ [t])
        ↔ d ∈ days_with_classes ts ∨ (d ∈ dayLetters ∧ t.days.data.contains d = true)) := by
  refine ⟨?_, ?_, ?_, ?_⟩
  · simp only [score_early_term, List.filter_append]
    cases hp : p.avoidEarlyMorning
    · simp
    · simp only [if_true]
      have hT : List.filter (fun u => decide (time_to_minutes u.startTime < 540)) [t] = [t] := by
        simp [h]
      rw [hT, List.length_append]
      simp only [List.length_singleton]
      push_cast
      ring
  · simp only [score_late_term, List.filter_append]
    have hT : List.filter (fun u => decide (1020 < time_to_minutes u.startTime)) [t] = [] := by
      simp [h]
    rw [hT, List.append_nil]
  · cases hpt : p.preferredTimeOfDay with
    | none => simp [score_tod_term, hpt]
    | some v =>
      simp only [score_tod_term, hpt, Option.getD_some]
      by_cases hv0 : v = ""
      · simp [hv0]
      · rw [if_pos hv0, if_pos hv0]
        by_cases hm : v = "morning"
        · rw [if_pos hm, if_pos hm, if_pos hm]
          rw [List.filter_append]
          have hT : List.filter (fun u => decide (time_to_minutes u.startTime < 720)) [t] = [t] := by
            simp [h]
          rw [hT, List.length_append]
          simp only [List.length_singleton]
          push_cast
          ring
        · rw [if_neg hm, if_neg hm, if_neg hm, add_zero]
          by_cases ha : v = "afternoon"
          · rw [if_pos ha, if_pos ha]
            rw [List.filter_append]
            have hT : List.filter (fun u => decide (720 ≤ time_to_minutes u.startTime ∧
                time_to_minutes u.startTime ≤ 1020)) [t] = [] := by
              simp [h]
            rw [hT, List.append_nil]
          · rw [if_neg ha, if_neg ha]
            by_cases he : v = "evening"
            · rw [if_pos he, if_pos he]
              rw [List.filter_append]
              have hT : List.filter (fun u => decide (1020 < time_to_minutes u.startTime)) [t]
                  = [] := by
                simp [h]
              rw [hT, List.append_nil]
            · rw [if_neg he, if_neg he]
  · intro d
    simp only [days_with_classes, List.mem_filter, List.any_append, List.any_cons,
      List.any_nil, Bool.or_false, Bool.or_eq_true, and_or_left]

/-- Witness for C6 (amended): the term effects at the concrete timeless
Monday slot under the avoid-early-morning profile. -/
theorem timeless_slot_term_effects_witness :
    score_early_term ([] ++ [slotNoTime]) prefsAvoidEarly
        = score_early_term [] prefsAvoidEarly
            + (if prefsAvoidEarly.avoidEarlyMorning then (-10 : ℚ) else 0) ∧
    score_late_term ([] ++ [slotNoTime]) prefsAvoidEarly
        = score_late_term [] prefsAvoidEarly ∧
    score_tod_term ([] ++ [slotNoTime]) prefsAvoidEarly
        = score_tod_term [] prefsAvoidEarly
            + (if prefsAvoidEarly.preferredTimeOfDay.getD "" = "morning" then (8 : ℚ) else 0) ∧
    (∀ d, d ∈ days_with_classes ([] ++ [slotNoTime])
        ↔ d ∈ days_with_classes []
            ∨ (d ∈ dayLetters ∧ slotNoTime.days.data.contains d = true)) :=
  timeless_slot_term_effects [] slotNoTime prefsAvoidEarly rfl

/-! ## Claim C9: monotonicity in the max-classes-per-day cap -/

/-- C9 counterexample: with four Monday slots, caps 0 ≤ 3, the score under
cap 3 is STRICTLY LOWER than under cap 0: a cap of 0 is falsy
(`if max_classes_per_day:`) and disables the penalty entirely, while cap 3
subtracts 25 for the fourth Monday class — so raising the cap from 0 to 3
decreases the score, refuting monotonicity over all non-negative caps. -/
theorem cap_zero_not_monotone :
    (0 : ℤ) ≤ 3 ∧
    score_schedule [comboM4] { emptyPrefs with maxClassesPerDay := some 3 } none <
      score_schedule [comboM4] { emptyPrefs with maxClassesPerDay := some 0 } none := by
  constructor
  · decide
  · with_unfolding_all decide

/-- Helper for C9: with positive caps `c1 ≤ c2` the cap penalty term is
monotone (a larger cap penalizes no more). -/
theorem score_cap_term_mono (all_times : List NormSlot) (p : Preferences)
    (c1 c2 : ℤ) (h1 : 1 ≤ c1) (h12 : c1 ≤ c2) :
    score_cap_term all_times { p with maxClassesPerDay := some c1 } ≤
      score_cap_term all_times { p with maxClassesPerDay := some c2 } := by
  have e1 : ({ p with maxClassesPerDay := some c1 } : Preferences).maxClassesPerDay
      = some c1 := rfl
  have e2 : ({ p with maxClassesPerDay := some c2 } : Preferences).maxClassesPerDay
      = some c2 := rfl
  simp only [score_cap_term, e1, e2, Option.getD_some]
  rw [if_pos (by omega : c1 ≠ 0), if_pos (by omega : c2 ≠ 0)]
  rw [neg_le_neg_iff, Int.cast_le]
  apply List.sum_le_sum
  intro d hd
  split_ifs with ha hb hb <;> omega

/-- C9 (amended): the cap monotonicity holds for positive caps — for
`1 ≤ c1 ≤ c2` the score under cap `c2` is at least the score under cap `c1`
for every schedule, profile and pre-extracted time list; but a cap of 0 is
treated exactly like an absent cap (the block is skipped), so monotonicity
fails from cap 0 (see the counterexample). -/
theorem score_schedule_cap_monotone :
    (∀ (combinations : List Combo) (p : Preferences) (pre : Option (List NormSlot))
        (c1 c2 : ℤ), 1 ≤ c1 → c1 ≤ c2 →
      score_schedule combinations { p with maxClassesPerDay := some c1 } pre ≤
        score_schedule combinations { p with maxClassesPerDay := some c2 } pre) ∧
    (∀ (combinations : List Combo) (p : Preferences) (pre : Option (List NormSlot)),
      score_schedule combinations { p with maxClassesPerDay := some 0 } pre =
        score_schedule combinations { p with maxClassesPerDay := none } pre) := by
  constructor
  · intro combinations p pre c1 c2 h1 h12
    by_cases hc : combinations = []
    · simp [score_schedule, hc]
    · simp only [score_schedule, if_neg hc]
      exact add_le_add (add_le_add_left (score_cap_term_mono _ p c1 c2 h1 h12) _) le_rfl
  · intro combinations p pre
    rfl

/-- Witness for C9 (amended) at the four-Monday-slot schedule with caps
1 ≤ 3. -/
theorem score_schedule_cap_monotone_witness :
    score_schedule [comboM4] { emptyPrefs with maxClassesPerDay := some 1 } none ≤
      score_schedule [comboM4] { emptyPrefs with maxClassesPerDay := some 3 } none :=
  score_schedule_cap_monotone.1 [comboM4] emptyPrefs none 1 3 (by decide) (by decide)

/-! ## Claim C7: shape of the emitted combinations -/

/-- The enumeration the claim describes, written from its words: per lecture
group in order, the lecture alone when it has no secondary sections,
otherwise one pairing per own section whose time slots do not overlap the
lecture's own time slots under the §4.1 predicate — a section with no known
times passing vacuously.  Compared against `findValidCombinationsInfo` after
dropping the bookkeeping indices. -/
def findValidCombinationsClaim (info : CourseInfo) :
    List (LectureEntry × Option SectionEntry) :=
  info.lectureSections.flatMap (fun lec =>
    if lec.sections = [] then [(lec, none)]
    else (lec.sections.filter (fun s =>
        s.times = [] ∨
          ¬ (lec.times.any (fun a => s.times.any (fun b => has_time_conflict a b))) = true)).map
      (fun s => (lec, some s)))

/-- Helper: mapping a projection over a flatMap of an enumeration whose
per-element image is index-independent. -/
theorem flatMap_enumFrom_map {α β γ : Type _} (l : List α) (F : ℕ × α → List β)
    (f : β → γ) (G : α → List γ) (h : ∀ i x, (F (i, x)).map f = G x) :
    ∀ n, ((List.enumFrom n l).flatMap F).map f = l.flatMap G := by
  induction l with
  | nil => intro n; rfl
  | cons x xs ih =>
    intro n
    rw [List.enumFrom_cons, List.flatMap_cons, List.flatMap_cons, List.map_append, h, ih]

/-- Helper for C7: projecting the kept combinations of one lecture group to
(lecture, section) pairs yields exactly the claim's filtered section list.
The section-index lookup disappears under the projection. -/
theorem proj_filterMap_sections (lec : LectureEntry) (i : ℕ)
    (idx : SectionEntry → Option ℕ) (secs : List SectionEntry) :
    (secs.filterMap (fun s =>
        if lec.times ≠ [] ∧ s.times ≠ [] ∧ check_times_conflict lec.times s.times = true
        then none
        else some { lectureIndex := i, lecture := lec, sectionIndex := idx s,
                    sectionOpt := some s })).map
        (fun c : Combo => (c.lecture, c.sectionOpt))
      = (secs.filter (fun s => s.times = [] ∨
          ¬ (lec.times.any (fun a => s.times.any (fun b => has_time_conflict a b))) = true)).map
        (fun s => (lec, some s)) := by
  induction secs with
  | nil => rfl
  | cons x xs ih =>
    by_cases hP : lec.times ≠ [] ∧ x.times ≠ [] ∧ check_times_conflict lec.times x.times = true
    · have hq : ¬ (x.times = [] ∨
          ¬ (lec.times.any (fun a => x.times.any (fun b => has_time_conflict a b))) = true) := by
        rintro (h1 | h2)
        · exact hP.2.1 h1
        · exact h2 hP.2.2
      rw [List.filterMap_cons_none (by rw [if_pos hP]), ih,
        List.filter_cons_of_neg (by simpa using hq)]
    · have hq : x.times = [] ∨
          ¬ (lec.times.any (fun a => x.times.any (fun b => has_time_conflict a b))) = true := by
        by_cases hx : x.times = []
        · exact Or.inl hx
        · refine Or.inr fun hC => ?_
          by_cases hl : lec.times = []
          · rw [hl] at hC
            simp at hC
          · exact hP ⟨hl, hx, hC⟩
      rw [List.filterMap_cons_some (by rw [if_neg hP]), List.map_cons,
        List.filter_cons_of_pos (by simpa using hq), List.map_cons, ih]

/-- C7: for every normalized course, `find_valid_combinations` emits exactly
one lecture-only combination per section-less lecture group and, for each
lecture group with secondary sections, one combination per own section whose
time slots do not overlap the lecture's own time slots (a section with no
known times always included); sections of other lectures are never paired
and the grouping order is preserved. -/
theorem find_valid_combinations_matches_claim (info : CourseInfo) :
    (findValidCombinationsInfo info).map (fun c => (c.lecture, c.sectionOpt)) =
      findValidCombinationsClaim info := by
  unfold findValidCombinationsInfo findValidCombinationsClaim
  rw [show (info.lectureSections.enum) = List.enumFrom 0 info.lectureSections from rfl]
  refine flatMap_enumFrom_map info.lectureSections _ _ _ ?_ 0
  intro i lec
  by_cases hemp : lec.sections = []
  · rw [if_pos hemp, if_pos hemp]
    rfl
  · rw [if_neg hemp, if_neg hemp]
    exact proj_filterMap_sections lec i _ lec.sections

/-! ## Claim C4: day-grouped fast check vs naive all-pairs check -/

/-- C4 counterexample: both slots have weekday-only days with positive,
well-ordered minutes, yet the fast check reports a conflict while the naive
all-pairs check does not.  The slot with day string "MM" appends its interval
TWICE to Monday's group (once per character), and the adjacent scan then
compares the interval against its own copy. -/
theorem fast_check_dup_day_mismatch :
    (∀ t ∈ [slotDupDays, slotTue], ∀ c ∈ t.days.data, c ∈ dayLetters) ∧
    (∀ t ∈ [slotDupDays, slotTue],
      0 < time_to_minutes t.startTime ∧
        time_to_minutes t.startTime < time_to_minutes t.endTime) ∧
    check_schedule_conflicts_fast [slotDupDays, slotTue] = true ∧
    pairwise_conflict_naive [slotDupDays, slotTue] = false := by
  refine ⟨by decide, by decide, by decide, by decide⟩

/-- Helper: stable insertion produces a permutation of the cons. -/
theorem pyInsert_perm (le : α → α → Bool) (x : α) (l : List α) :
    (pyInsert le x l).Perm (x :: l) := by
  induction l with
  | nil => exact List.Perm.refl _
  | cons y ys ih =>
    by_cases h : le y x = true
    · simp only [pyInsert, if_pos h]
      exact (ih.cons y).trans (List.Perm.swap x y ys)
    · simp only [pyInsert, if_neg h]
      exact List.Perm.refl _

/-- Helper: `pySort` permutes its input. -/
theorem pySort_perm (le : α → α → Bool) (l : List α) : (pySort le l).Perm l := by
  suffices h : ∀ (acc l : List α),
      (l.foldl (fun acc x => pyInsert le x acc) acc).Perm (acc ++ l) by
    simpa [pySort] using h [] l
  intro acc l
  induction l generalizing acc with
  | nil => simp
  | cons x xs ih =>
    simp only [List.foldl_cons]
    refine ((ih (pyInsert le x acc)).trans ?_)
    refine ((pyInsert_perm le x acc).append_right xs).trans ?_
    exact List.perm_middle.symm

/-- Helper: inserting into a sorted list keeps it sorted, for a transitive
total boolean order. -/
theorem pyInsert_pairwise (le : α → α → Bool)
    (htrans : ∀ a b c, le a b = true → le b c = true → le a c = true)
    (htot : ∀ a b, le a b = true ∨ le b a = true)
    (x : α) (l : List α) (hl : l.Pairwise (fun a b => le a b = true)) :
    (pyInsert le x l).Pairwise (fun a b => le a b = true) := by
  induction l with
  | nil => simp [pyInsert]
  | cons y ys ih =>
    rcases List.pairwise_cons.mp hl with ⟨hy, hys⟩
    by_cases h : le y x = true
    · simp only [pyInsert, if_pos h]
      refine List.pairwise_cons.mpr ⟨?_, ih hys⟩
      intro b hb
      rcases List.mem_cons.mp ((pyInsert_perm le x ys).subset hb) with rfl | h2
      · exact h
      · exact hy b h2
    · simp only [pyInsert, if_neg h]
      refine List.pairwise_cons.mpr ⟨?_, hl⟩
      intro b hb
      rcases List.mem_cons.mp hb with rfl | h2
      · rcases htot x b with h1 | h1
        · exact h1
        · exact absurd h1 h
      · rcases htot x y with h1 | h1
        · exact htrans x y b h1 (hy b h2)
        · exact absurd h1 h

/-- Helper: `pySort` sorts, for a transitive total boolean order. -/
theorem pySort_pairwise (le : α → α → Bool)
    (htrans : ∀ a b c, le a b = true → le b c = true → le a c = true)
    (htot : ∀ a b, le a b = true ∨ le b a = true) (l : List α) :
    (pySort le l).Pairwise (fun a b => le a b = true) := by
  suffices h : ∀ (acc l : List α), acc.Pairwise (fun a b => le a b = true) →
      (l.foldl (fun acc x => pyInsert le x acc) acc).Pairwise (fun a b => le a b = true) by
    exact h [] l List.Pairwise.nil
  intro acc l
  induction l generalizing acc with
  | nil => intro h; exact h
  | cons x xs ih =>
    intro hacc
    simp only [List.foldl_cons]
    exact ih (pyInsert le x acc) (pyInsert_pairwise le htrans htot x acc hacc)

/-- Helper: the naive all-pairs check is true exactly when the slot list is
not pairwise conflict-free. -/
theorem pairwise_conflict_naive_iff (l : List NormSlot) :
    pairwise_conflict_naive l = true ↔
      ¬ l.Pairwise (fun a b => ¬ has_time_conflict a b = true) := by
  induction l with
  | nil => simp [pairwise_conflict_naive]
  | cons t rest ih =>
    rw [pairwise_conflict_naive, Bool.or_eq_true, List.any_eq_true, ih, List.pairwise_cons]
    constructor
    · rintro (⟨u, hu, hc⟩ | h)
      · rintro ⟨hall, -⟩
        exact (hall u hu) hc
      · rintro ⟨-, htl⟩
        exact h htl
    · intro hn
      by_cases hex : ∃ u ∈ rest, has_time_conflict t u = true
      · exact Or.inl hex
      · refine Or.inr fun htl => hn ⟨fun u hu hc => hex ⟨u, hu, hc⟩, htl⟩

/-- Helper: on a start-sorted list of genuine intervals (start < end), the
adjacent-pair scan detects a conflict exactly when SOME pair (not necessarily
adjacent) overlaps. -/
theorem hasAdjacentOverlap_iff {l : List (ℤ × ℤ)}
    (hsorted : l.Pairwise (fun a b => a.1 ≤ b.1))
    (hlt : ∀ p ∈ l, p.1 < p.2) :
    hasAdjacentOverlap l = true ↔
      ¬ l.Pairwise (fun a b => ¬ (a.1 < b.2 ∧ b.1 < a.2)) := by
  induction l with
  | nil => simp [hasAdjacentOverlap]
  | cons a tail ih =>
    cases tail with
    | nil => simp [hasAdjacentOverlap, List.pairwise_singleton]
    | cons b rest =>
      have hsorted' : (b :: rest).Pairwise (fun a b : ℤ × ℤ => a.1 ≤ b.1) :=
        hsorted.of_cons
      have hlt' : ∀ p ∈ b :: rest, p.1 < p.2 :=
        fun p hp => hlt p (List.mem_cons_of_mem a hp)
      have hab : a.1 ≤ b.1 :=
        List.rel_of_pairwise_cons hsorted (List.mem_cons_self b rest)
      have key : (∀ u ∈ b :: rest, ¬ (a.1 < u.2 ∧ u.1 < a.2)) ↔
          ¬ (a.1 < b.2 ∧ b.1 < a.2) := by
        constructor
        · intro hall
          exact hall b (List.mem_cons_self b rest)
        · intro hnab u hu hovu
          apply hnab
          rcases List.mem_cons.mp hu with rfl | hu2
          · exact hovu
          · have hbu : b.1 ≤ u.1 := List.rel_of_pairwise_cons hsorted' hu2
            have hbe : b.1 < b.2 := hlt b (List.mem_cons_of_mem a (List.mem_cons_self b rest))
            exact ⟨lt_of_le_of_lt hab hbe, lt_of_le_of_lt hbu hovu.2⟩
      show ((decide (a.1 < b.2) && decide (a.2 > b.1)) || hasAdjacentOverlap (b :: rest))
          = true ↔ _
      rw [Bool.or_eq_true, Bool.and_eq_true, decide_eq_true_eq, decide_eq_true_eq,
        ih hsorted' hlt']
      conv_rhs => rw [List.pairwise_cons]
      constructor
      · rintro (⟨h1, h2⟩ | htail)
        · rintro ⟨hall, -⟩
          exact hall b (List.mem_cons_self b rest) ⟨h1, h2⟩
        · rintro ⟨-, htl⟩
          exact htail htl
      · intro hn
        by_cases hov : a.1 < b.2 ∧ b.1 < a.2
        · exact Or.inl ⟨hov.1, hov.2⟩
        · refine Or.inr fun htl => hn ⟨key.mpr hov, htl⟩

/-- Helper: a day string containing only weekday letters has no spaces, so
stripping spaces is the identity on its characters. -/
theorem daysChars_eq_self {t : NormSlot} (h : ∀ c ∈ t.days.data, c ∈ dayLetters) :
    daysChars t.days = t.days.data := by
  apply List.filter_eq_self.mpr
  intro c hc
  have hmem := h c hc
  simp only [decide_eq_true_eq]
  intro heq
  rw [heq] at hmem
  simp [dayLetters] at hmem

/-- Helper: the per-day view of one slot used to restate `dayGroup` when day
strings have no duplicate letters. -/
def dayOpt (d : Char) (t : NormSlot) : Option (ℤ × ℤ) :=
  if d ∈ t.days.data then
    some (time_to_minutes t.startTime, time_to_minutes t.endTime)
  else none

/-- Helper: under the C4 hypotheses (weekday-only, duplicate-free day strings
and positive well-ordered minutes) each slot contributes at most one interval
per day, so the day group is a `filterMap`. -/
theorem dayGroup_eq_filterMap {ts : List NormSlot} (d : Char)
    (hdays : ∀ t ∈ ts, ∀ c ∈ t.days.data, c ∈ dayLetters)
    (hnodup : ∀ t ∈ ts, t.days.data.Nodup)
    (hpos : ∀ t ∈ ts, 0 < time_to_minutes t.startTime ∧
        time_to_minutes t.startTime < time_to_minutes t.endTime) :
    dayGroup ts d = ts.filterMap (dayOpt d) := by
  induction ts with
  | nil => rfl
  | cons t rest ih =>
    have hdayst := hdays t (List.mem_cons_self t rest)
    have hnodupt := hnodup t (List.mem_cons_self t rest)
    have hpost := hpos t (List.mem_cons_self t rest)
    have htail : dayGroup rest d = rest.filterMap (dayOpt d) :=
      ih (fun u hu => hdays u (List.mem_cons_of_mem t hu))
        (fun u hu => hnodup u (List.mem_cons_of_mem t hu))
        (fun u hu => hpos u (List.mem_cons_of_mem t hu))
    have hs0 : ¬ (time_to_minutes t.startTime = 0 ∨ time_to_minutes t.endTime = 0) := by
      push_neg
      exact ⟨hpost.1.ne', (lt_trans hpost.1 hpost.2).ne'⟩
    have hdc : daysChars t.days = t.days.data := daysChars_eq_self hdayst
    rw [dayGroup, List.flatMap_cons, ← dayGroup]
    rw [htail, hdc]
    by_cases hd : d ∈ t.days.data
    · have hcount : t.days.data.count d = 1 := List.count_eq_one_of_mem hnodupt hd
      rw [if_neg hs0, List.filter_eq, hcount]
      rw [List.filterMap_cons_some (by rw [dayOpt, if_pos hd])]
      rfl
    · have hcount : t.days.data.count d = 0 := List.count_eq_zero.mpr hd
      rw [if_neg hs0, List.filter_eq, hcount]
      rw [List.filterMap_cons_none (by rw [dayOpt, if_neg hd])]
      rfl

/-- Helper: a pairwise property for every day letter is a single pairwise
property of the conjunction. -/
theorem pairwise_forall_mem {α : Type _} {R : Char → α → α → Prop} {ds : List Char}
    {l : List α} :
    (∀ d ∈ ds, l.Pairwise (R d)) ↔ l.Pairwise (fun a b => ∀ d ∈ ds, R d a b) := by
  induction l with
  | nil => simp
  | cons x xs ih =>
    simp only [List.pairwise_cons]
    constructor
    · intro h
      refine ⟨fun b hb d hd => (h d hd).1 b hb, ih.mp (fun d hd => (h d hd).2)⟩
    · rintro ⟨h1, h2⟩ d hd
      exact ⟨fun b hb => h1 b hb d hd, ih.mpr h2 d hd⟩

/-- Helper: sorting and scanning one day group detects exactly an overlapping
pair of that group. -/
theorem fastDay_iff (g : List (ℤ × ℤ)) (hlt : ∀ p ∈ g, p.1 < p.2) :
    hasAdjacentOverlap (pySort (fun a b => decide (a.1 ≤ b.1)) g) = true ↔
      ¬ g.Pairwise (fun a b => ¬ (a.1 < b.2 ∧ b.1 < a.2)) := by
  have hperm := pySort_perm (fun a b : ℤ × ℤ => decide (a.1 ≤ b.1)) g
  have hsorted : (pySort (fun a b : ℤ × ℤ => decide (a.1 ≤ b.1)) g).Pairwise
      (fun a b : ℤ × ℤ => a.1 ≤ b.1) := by
    have h := pySort_pairwise (fun a b : ℤ × ℤ => decide (a.1 ≤ b.1))
      (fun a b c hab hbc => by
        simp only [decide_eq_true_eq] at hab hbc ⊢
        exact le_trans hab hbc)
      (fun a b => by
        simp only [decide_eq_true_eq]
        exact le_total a.1 b.1) g
    exact h.imp (fun hab => by simpa using hab)
  rw [hasAdjacentOverlap_iff hsorted (fun p hp => hlt p (hperm.subset hp))]
  have hsymm : ∀ {x y : ℤ × ℤ}, ¬ (x.1 < y.2 ∧ y.1 < x.2) → ¬ (y.1 < x.2 ∧ x.1 < y.2) :=
    fun h hc => h ⟨hc.2, hc.1⟩
  exact not_congr (hperm.pairwise_iff hsymm)

/-- C4 (amended): for slot lists whose day strings contain only the weekday
letters M,T,W,R,F WITHOUT REPETITION within one slot, and whose parsed
start/end minutes are positive with start < end, the day-grouped
sort-and-scan check agrees exactly with the naive all-pairs check.  (Without
the no-repetition condition the equivalence fails — see the counterexample:
a repeated day letter duplicates the interval inside its day group and the
scan compares the copy against itself.) -/
theorem fast_conflict_check_equiv_naive (ts : List NormSlot)
    (hdays : ∀ t ∈ ts, ∀ c ∈ t.days.data, c ∈ dayLetters)
    (hnodup : ∀ t ∈ ts, t.days.data.Nodup)
    (hpos : ∀ t ∈ ts, 0 < time_to_minutes t.startTime ∧
        time_to_minutes t.startTime < time_to_minutes t.endTime) :
    check_schedule_conflicts_fast ts = pairwise_conflict_naive ts := by
  by_cases hlen : ts.length < 2
  · rw [check_schedule_conflicts_fast, if_pos hlen]
    rcases ts with _ | ⟨t, _ | ⟨u, rest⟩⟩
    · rfl
    · rfl
    · simp only [List.length_cons] at hlen
      omega
  · rw [check_schedule_conflicts_fast, if_neg hlen]
    apply Bool.coe_iff_coe.mp
    rw [List.any_eq_true, pairwise_conflict_naive_iff]
    have hlt_group : ∀ d : Char, ∀ p ∈ ts.filterMap (dayOpt d), p.1 < p.2 := by
      intro d p hp
      rcases List.mem_filterMap.mp hp with ⟨t, ht, hf⟩
      simp only [dayOpt] at hf
      split_ifs at hf with hdm
      rw [Option.some.injEq] at hf
      cases hf
      exact (hpos t ht).2
    have step1 : ∀ d ∈ dayLetters,
        (hasAdjacentOverlap (pySort (fun a b => decide (a.1 ≤ b.1)) (dayGroup ts d)) = true ↔
          ¬ (ts.filterMap (dayOpt d)).Pairwise
              (fun a b => ¬ (a.1 < b.2 ∧ b.1 < a.2))) := by
      intro d hd
      rw [dayGroup_eq_filterMap d hdays hnodup hpos]
      exact fastDay_iff _ (hlt_group d)
    have combined : (∀ d ∈ dayLetters, (ts.filterMap (dayOpt d)).Pairwise
        (fun a b => ¬ (a.1 < b.2 ∧ b.1 < a.2))) ↔
        ts.Pairwise (fun a b => ¬ has_time_conflict a b = true) := by
      have e1 : ∀ d : Char,
          ((ts.filterMap (dayOpt d)).Pairwise (fun a b => ¬ (a.1 < b.2 ∧ b.1 < a.2)) ↔
            ts.Pairwise (fun t u => ∀ x ∈ dayOpt d t, ∀ y ∈ dayOpt d u,
              ¬ (x.1 < y.2 ∧ y.1 < x.2))) :=
        fun d => List.pairwise_filterMap
      simp only [e1]
      rw [pairwise_forall_mem]
      apply List.Pairwise.iff_of_mem
      intro a b ha hb
      have hA := hpos a ha
      have hB := hpos b hb
      rw [has_time_conflict_true_iff]
      constructor
      · intro hall
        rintro ⟨⟨c, hca, hcb⟩, -, -, -, -, h1, h2⟩
        rw [daysChars_eq_self (hdays a ha)] at hca
        rw [daysChars_eq_self (hdays b hb)] at hcb
        have hcL : c ∈ dayLetters := hdays a ha c hca
        refine hall c hcL
          (time_to_minutes a.startTime, time_to_minutes a.endTime) ?_
          (time_to_minutes b.startTime, time_to_minutes b.endTime) ?_ ⟨h1, h2⟩
        · simp [dayOpt, hca]
        · simp [dayOpt, hcb]
      · intro hnc d hd x hx y hy hov
        simp only [dayOpt] at hx hy
        split_ifs at hx with hda
        · split_ifs at hy with hdb
          · simp only [Option.mem_def, Option.some.injEq] at hx hy
            apply hnc
            refine ⟨⟨d, ?_, ?_⟩, hA.1.ne', (lt_trans hA.1 hA.2).ne',
              hB.1.ne', (lt_trans hB.1 hB.2).ne', ?_, ?_⟩
            · rw [daysChars_eq_self (hdays a ha)]
              exact hda
            · rw [daysChars_eq_self (hdays b hb)]
              exact hdb
            · rw [← hx, ← hy] at hov
              exact hov.1
            · rw [← hx, ← hy] at hov
              exact hov.2
          · simp at hy
        · simp at hx
    constructor
    · rintro ⟨d, hd, hadj⟩
      intro hPW
      exact (step1 d hd).mp hadj ((combined.mpr hPW) d hd)
    · intro hncon
      by_contra hno
      push_neg at hno
      apply hncon
      apply combined.mp
      intro d hd
      by_contra hnp
      have hfalse := hno d hd
      rw [(step1 d hd).mpr hnp] at hfalse
      exact hfalse rfl

/-- Witness for C4 (amended): the equivalence at two concrete well-formed
slots (both checks evaluate to true on an actual Monday overlap). -/
theorem fast_conflict_check_equiv_naive_witness :
    check_schedule_conflicts_fast [slotM10, slotMidB] =
      pairwise_conflict_naive [slotM10, slotMidB] :=
  fast_conflict_check_equiv_naive [slotM10, slotMidB] (by decide) (by decide) (by decide)
